import Mathlib

/-!
Verification of the endole-scraper repository's core algorithms against its
natural-language specification.

The development shallowly embeds the relevant Python functions:

* `extract_all_data`, its re-sort loop and the `pd.concat ... drop_duplicates`
  merge (src/endole_scraper/common/extract_data.py),
* `change_order_of_column`'s order-menu click (same file),
* `_validate_headers` / `ingest_dataframe` and the `sqlite3_process`
  connection decorator (src/business_scraper/common/sqlite_table.py),
* `_format_currency`, `_format_percentages` and the final COMPANY/ADDRESS
  split of `format_dataframe` (src/endole_scraper/common/format_data.py).

Pandas dataframes are modelled as lists of rows, Python floats as rationals,
Python exceptions as `Option`/`Except` failures.
-/

namespace EndoleScraper

/-- A raw table row as read by `extract_page_table`: the `Company` cell
(the dedup key used by `drop_duplicates(subset=['Company'])`) plus the
remaining cells, abstracted as a single payload string. -/
structure Row where
  company : String
  payload : String
deriving DecidableEq, Repr

/-- The `Company` column of a batch. -/
def companies (l : List Row) : List String := l.map Row.company

/-- Auxiliary recursion for `drop_duplicates(subset=['Company'], keep='first')`:
`seen` is the set of company keys already kept. -/
def dropDupAux (seen : List String) : List Row → List Row
  | [] => []
  | r :: rs =>
    if r.company ∈ seen then dropDupAux seen rs
    else r :: dropDupAux (r.company :: seen) rs

/-- Pandas `df.drop_duplicates(subset=['Company'])` with the default
`keep='first'`: keeps the first row bearing each company key. -/
def dropDupCompany (l : List Row) : List Row := dropDupAux [] l

/-- Line 300 of extract_data.py:
`pd.concat([full_df, df_cycle]).drop_duplicates(subset=['Company']).reset_index(drop=True)`. -/
def mergeBatches (acc new : List Row) : List Row := dropDupCompany (acc ++ new)

/-- Key-level first-occurrence deduplication, used to state which company
keys survive `dropDupCompany` and in which order. -/
def dedupFirstAux (seen : List String) : List String → List String
  | [] => []
  | k :: ks =>
    if k ∈ seen then dedupFirstAux seen ks
    else k :: dedupFirstAux (k :: seen) ks

/-- First-occurrence deduplication of a key list. -/
def dedupFirst (l : List String) : List String := dedupFirstAux [] l

/-- The mutable state of the re-sort loop of `extract_all_data`:
the accumulator `full_df`, the `cycles` counter, and a log of the
`change_order_of_column(filter_no, order)` calls performed so far
(each such call is immediately followed by one `extract_page_table` re-read,
so the log also counts re-reads). -/
structure LoopState where
  full : List Row
  cycles : Nat
  sortLog : List (Nat × Bool)
deriving DecidableEq, Repr

/-- One cycle of the loop body (lines 294-303 of extract_data.py):
`change_order_of_column(filter_no=index, order=order)` (logged), then
`df_cycle = extract_page_table(...)` (modelled by the environment `reads`),
then the dedup merge into `full_df` and `cycles += 1`. -/
def doCycle (reads : Nat → Bool → List Row) (st : LoopState) (index : Nat)
    (order : Bool) : LoopState :=
  { full := mergeBatches st.full (reads index order)
    cycles := st.cycles + 1
    sortLog := st.sortLog ++ [(index, order)] }

/-- The inner `for order in [True, False]` loop for one dropdown `index`.
The guard `if cycles == 10 or len(full_df) == company_count: break` abandons
the remaining order values of this dropdown without changing state. -/
def innerLoop (N : Nat) (reads : Nat → Bool → List Row) (index : Nat) :
    List Bool → LoopState → LoopState
  | [], st => st
  | order :: rest, st =>
    if st.cycles = 10 ∨ st.full.length = N then st
    else innerLoop N reads index rest (doCycle reads st index order)

/-- The outer `for index, _ in enumerate(drop_down_buttons)` loop. -/
def outerLoop (N : Nat) (reads : Nat → Bool → List Row) :
    List Nat → LoopState → LoopState
  | [], st => st
  | index :: rest, st =>
    outerLoop N reads rest (innerLoop N reads index [true, false] st)

/-- Embeds `extract_all_data(driver, company_count)` (lines 259-305), with the page
abstracted: `initialDf` is the first `extract_page_table` read, `numButtons`
the length of `obtain_drop_down_buttons(...)`, and `reads index order` the
table contents visible after re-sorting column `index` in direction `order`.
Returns the final accumulator together with the cycle counter and the log of
re-sort calls. -/
def extract_all_data (initialDf : List Row) (N : Nat) (numButtons : Nat)
    (reads : Nat → Bool → List Row) : LoopState :=
  if initialDf.length = N then ⟨initialDf, 0, []⟩
  else outerLoop N reads (List.range numButtons) ⟨initialDf, 0, []⟩

/-- The order menu revealed by clicking a dropdown button: per the source
comment in `change_order_of_column`, "the first link is for ascending and
the second for descending". -/
structure OrderMenu where
  ascendingLink : String
  descendingLink : String
deriving DecidableEq, Repr

/-- Result of `order_menu.find_elements(By.TAG_NAME, "a")`: the links of the menu in
document order (ascending first, descending second, per the source comment). -/
def orderMenuLinks (m : OrderMenu) : List String :=
  [m.ascendingLink, m.descendingLink]

/-- Embeds `change_order_of_column` (lines 217-256): clicks
`order_buttons[int(order)]`; `int(True) = 1`, `int(False) = 0`.
Returns the clicked link, or `none` for an out-of-range index. -/
def change_order_of_column (orderButtons : List String) (order : Bool) :
    Option String :=
  orderButtons[(if order then 1 else 0)]?

/-- The set of company keys marked as seen after one pass of `dropDupAux`. -/
def seenAfter (seen : List String) : List Row → List String
  | [] => seen
  | r :: rs =>
    if r.company ∈ seen then seenAfter seen rs
    else seenAfter (r.company :: seen) rs

/-! ### The `sqlite3_process` connection decorator -/

/-- Counts of connection-lifecycle events produced by one call through the
`sqlite3_process` decorator. -/
structure ConnLog where
  opened : Nat
  committed : Nat
  closed : Nat
deriving DecidableEq, Repr

/-- Embeds `sqlite3_process` (sqlite_table.py lines 15-32): `func_wrapper` opens a
connection, runs the wrapped operation (modelled as an `Except` value), and
then — with no try/finally — commits and closes. If the operation raises,
the exception propagates and the commit/close lines never run. -/
def sqlite3_process {E A : Type} (op : Except E A) : Except E A × ConnLog :=
  match op with
  | Except.ok a => (Except.ok a, ⟨1, 1, 1⟩)
  | Except.error e => (Except.error e, ⟨1, 0, 0⟩)

/-! ### Schema validation in `ingest_dataframe` -/

/-- A dataframe batch handed to `ingest_dataframe`: its column headers and
its rows (one list of cell values per row, aligned with the headers). -/
structure Batch where
  headers : List String
  rows : List (List String)
deriving DecidableEq, Repr

/-- Embeds `df['LOAD_DATE'] = self.load_date` (line 89): pandas overwrites the
column's values if it exists, otherwise appends a new column at the end. -/
def addLoadDate (b : Batch) (v : String) : Batch :=
  match b.headers.indexOf? "LOAD_DATE" with
  | some i => ⟨b.headers, b.rows.map fun row => row.set i v⟩
  | none => ⟨b.headers ++ ["LOAD_DATE"], b.rows.map fun row => row ++ [v]⟩

/-- Python's `str.lower()`, character by character (the schema and header
names are ASCII). -/
def pyLower (s : String) : String := String.mk (s.data.map Char.toLower)

/-- Embeds `_validate_headers` (sqlite_table.py lines 51-61): the list of headers
whose lower-cased form is not among the lower-cased schema column names —
the mismatched headers reported by the raised `ValueError`. -/
def _validate_headers (headers schema : List String) : List String :=
  headers.filter fun header =>
    !((schema.map pyLower).contains (pyLower header))

/-- Embeds `ingest_dataframe` (lines 80-95): optionally stamps the `LOAD_DATE`
column, validates the headers against the schema (raising — modelled as
`Except.error` carrying the mismatched header list — before any row is
inserted), then executes one INSERT per row. The `ok` value is the list of
executed inserts, each `(headers, row values)`. -/
def ingest_dataframe (schema : List String) (b : Batch) (loadDate : Bool)
    (loadDateVal : String) : Except (List String) (List (List String × List String)) :=
  let b2 := if loadDate then addLoadDate b loadDateVal else b
  let mismatched := _validate_headers b2.headers schema
  if mismatched = [] then Except.ok (b2.rows.map fun row => (b2.headers, row))
  else Except.error mismatched

/-! ### Field normalisation (format_data.py) -/

/-- Numeric value of a digit string, most significant digit first. -/
def digitsToNat (cs : List Char) : Nat :=
  cs.foldl (fun n c => n * 10 + (c.toNat - '0'.toNat)) 0

/-- Lines 26-27 of format_data.py: the characters of the input kept by
`''.join(char for char in currency if char in '0123456789.-')`. -/
def numeralChars (s : String) : String :=
  String.mk (s.data.filter fun c => ("0123456789.-".data).contains c)

/-- Python's `string.ascii_letters`. -/
def asciiLetters : String :=
  "abcdefghijklmnopqrstuvwxyzABCDEFGHIJKLMNOPQRSTUVWXYZ"

/-- Lines 28-29: `''.join(char for char in currency if char in string.ascii_letters)`. -/
def alphaChars (s : String) : String :=
  String.mk (s.data.filter fun c => (asciiLetters.data).contains c)

/-- Python's `str.strip()`: removes whitespace from both ends. -/
def pyStrip (s : String) : String :=
  String.mk
    (((s.data.dropWhile Char.isWhitespace).reverse.dropWhile
      Char.isWhitespace).reverse)

/-- The `multipliers` dict `{'k': 1000, 'm': 1000000}` of `_format_currency`
(line 24); looking up a missing key raises `KeyError`, modelled as `none`. -/
def multipliers (k : String) : Option Nat :=
  if k = "k" then some 1000 else if k = "m" then some 1000000 else none

/-- A parsed Python decimal numeral, kept exact: its value is
`(-1)^neg * mantissa / 10^scale`. Models the `float` produced by
`float(numerals)` by its exact decimal value. -/
structure Decimal where
  neg : Bool
  mantissa : Nat
  scale : Nat
deriving DecidableEq, Repr

/-- Rational value of a `Decimal`. -/
def Decimal.toRat (d : Decimal) : ℚ :=
  (if d.neg then -1 else 1) * (d.mantissa : ℚ) / 10 ^ d.scale

/-- Unsigned part of Python's `float()` parse on the alphabet
`0123456789.-`: digits with at most one dot and at least one digit.
Returns mantissa and scale; `none` models a raised `ValueError`. -/
def parseUnsignedDecimal (cs : List Char) : Option (Nat × Nat) :=
  let intPart := cs.takeWhile Char.isDigit
  let rest := cs.dropWhile Char.isDigit
  match rest with
  | [] => if intPart = [] then none else some (digitsToNat intPart, 0)
  | '.' :: frac =>
    if frac.all Char.isDigit ∧ (intPart ≠ [] ∨ frac ≠ []) then
      some (digitsToNat intPart * 10 ^ frac.length + digitsToNat frac,
        frac.length)
    else none
  | _ => none

/-- Python's `float(s)` for strings over the alphabet `0123456789.-`,
modelled by the exact decimal value; `none` models a raised `ValueError`. -/
def parseFloat (s : String) : Option Decimal :=
  match s.data with
  | '-' :: rest => (parseUnsignedDecimal rest).map fun p => ⟨true, p.1, p.2⟩
  | cs => (parseUnsignedDecimal cs).map fun p => ⟨false, p.1, p.2⟩

/-- Python's `int(s)` for such strings: an optional sign followed by at
least one digit and nothing else; `none` models a raised `ValueError`. -/
def parsePyInt (s : String) : Option Int :=
  match s.data with
  | '-' :: rest =>
    if rest ≠ [] ∧ rest.all Char.isDigit then
      some (-(digitsToNat rest : Int))
    else none
  | cs =>
    if cs ≠ [] ∧ cs.all Char.isDigit then some (digitsToNat cs) else none

/-- Lines 31-33 for a suffixed value:
`int(float(numerals) * int(multipliers[alpha_chars.strip()]))` in exact
decimal arithmetic — the product `±(mantissa * m) / 10^scale` truncated
toward zero (the magnitude uses natural division). -/
def truncScaledMul (d : Decimal) (m : Nat) : Int :=
  (if d.neg then -1 else 1) * ((d.mantissa * m) / 10 ^ d.scale : Nat)

/-- A Python value as produced by the formatters: `None`, a string, an
`int`, or a `float` (modelled as a rational). -/
inductive PyVal where
  | none
  | str (s : String)
  | int (n : Int)
  | float (q : ℚ)
deriving DecidableEq, Repr

/-- Embeds `_format_currency` (format_data.py lines 21-35). The input is
`none` when the missing-value sentinel was already mapped to Python `None`
by `_replace_hyphens_with_none`; falsy inputs (`None`, the empty string)
are returned unchanged. The outer `none` models a raised exception
(`ValueError` from `float`/`int`, or `KeyError` from the multiplier dict). -/
def _format_currency (currency : Option String) : Option PyVal :=
  match currency with
  | Option.none => some PyVal.none
  | some s =>
    if s = "" then some (PyVal.str "")
    else
      let numerals := numeralChars s
      let alpha := alphaChars s
      if alpha ≠ "" then
        match parseFloat numerals, multipliers (pyStrip alpha) with
        | some d, some m => some (PyVal.int (truncScaledMul d m))
        | _, _ => Option.none
      else
        (parsePyInt numerals).map PyVal.int

/-- Round half to even (Python's `round` tie-breaking) to an integer. -/
def roundHalfEven (q : ℚ) : Int :=
  let f := Rat.floor q
  let r := q - (f : ℚ)
  if r < 1 / 2 then f
  else if 1 / 2 < r then f + 1
  else if f % 2 = 0 then f else f + 1

/-- Python's `round(x, 4)` on the exact value. -/
def pyRound4 (q : ℚ) : ℚ := (roundHalfEven (q * 10000) : ℚ) / 10000

/-- Embeds `_format_percentages` (format_data.py lines 53-61): a non-empty
string whose numeral characters are non-empty is parsed, divided by 100 and
rounded to 4 decimal places; every other input — `None`, the empty string,
a non-string, or a string without numeral characters — is returned
unchanged. The outer `none` models a raised `ValueError`. -/
def _format_percentages (perc : PyVal) : Option PyVal :=
  match perc with
  | PyVal.str s =>
    if s = "" then some (PyVal.str s)
    else
      let numerals := numeralChars s
      if numerals = "" then some (PyVal.str s)
      else
        match parseFloat numerals with
        | some d => some (PyVal.float (pyRound4 (d.toRat / 100)))
        | Option.none => Option.none
  | v => some v

/-! ### The final COMPANY/ADDRESS split of `format_dataframe` -/

/-- Python's `str.split('  ')`: split on each non-overlapping occurrence of
two consecutive spaces, scanning left to right. -/
def splitDS : List Char → List (List Char)
  | [] => [[]]
  | [c] => [[c]]
  | c1 :: c2 :: rest =>
    if c1 = ' ' ∧ c2 = ' ' then [] :: splitDS rest
    else
      match splitDS (c2 :: rest) with
      | [] => [[c1]]
      | h :: t => (c1 :: h) :: t

/-- Whether a character list contains two consecutive spaces. -/
def containsDS : List Char → Bool
  | [] => false
  | [_] => false
  | c1 :: c2 :: rest => (c1 == ' ' && c2 == ' ') || containsDS (c2 :: rest)

/-- Columns 0 and 1 of pandas `Series.str.split('  ', expand=True)` for one
cell: the part before the first double space, and the part between the
first and second double space (`none` when the cell has no separator). -/
def companyAddressSplit (cell : String) : String × Option String :=
  match splitDS cell.data with
  | [] => ("", Option.none)
  | [a] => (String.mk a, Option.none)
  | a :: b :: _ => (String.mk a, some (String.mk b))

/-- The COMPANY and ADDRESS fields of a row being formatted (the other
columns are unaffected by the final split step). -/
structure RawRow where
  company : String
  address : Option String
deriving DecidableEq, Repr

/-- Lines 136-138 of format_data.py, per row:
`self.dataframe[['COMPANY', 'ADDRESS']] = self.dataframe['COMPANY'].str.split('  ', expand=True)` —
both outputs are derived from the COMPANY cell alone, so the scraped
ADDRESS value is overwritten. -/
def format_company_address (r : RawRow) : RawRow :=
  ⟨(companyAddressSplit r.company).1, (companyAddressSplit r.company).2⟩

/-! ### Loop invariants of `extract_all_data` -/

theorem innerLoop_frozen (N : Nat) (reads : Nat → Bool → List Row) (index : Nat)
    (os : List Bool) (st : LoopState)
    (h : st.cycles = 10 ∨ st.full.length = N) :
    innerLoop N reads index os st = st := by
  cases os with
  | nil => rfl
  | cons o rest => simp [innerLoop, h]

theorem outerLoop_frozen (N : Nat) (reads : Nat → Bool → List Row)
    (indices : List Nat) (st : LoopState)
    (h : st.cycles = 10 ∨ st.full.length = N) :
    outerLoop N reads indices st = st := by
  induction indices with
  | nil => rfl
  | cons i rest ih => simp [outerLoop, innerLoop_frozen N reads i _ st h, ih]

theorem innerLoop_inv (N : Nat) (reads : Nat → Bool → List Row) (index : Nat)
    (os : List Bool) (st : LoopState)
    (h : st.cycles ≤ 10 ∧ st.sortLog.length = st.cycles) :
    (innerLoop N reads index os st).cycles ≤ 10 ∧
      (innerLoop N reads index os st).sortLog.length =
        (innerLoop N reads index os st).cycles := by
  induction os generalizing st with
  | nil => exact h
  | cons o rest ih =>
    by_cases hstop : st.cycles = 10 ∨ st.full.length = N
    · simpa [innerLoop, hstop] using h
    · have hne : st.cycles ≠ 10 := fun hc => hstop (Or.inl hc)
      have hlt : st.cycles < 10 := lt_of_le_of_ne h.1 hne
      have hstep : (doCycle reads st index o).cycles ≤ 10 ∧
          (doCycle reads st index o).sortLog.length =
            (doCycle reads st index o).cycles := by
        constructor
        · simp [doCycle]; omega
        · simp [doCycle, h.2]
      simpa [innerLoop, hstop] using ih (doCycle reads st index o) hstep

theorem outerLoop_inv (N : Nat) (reads : Nat → Bool → List Row)
    (indices : List Nat) (st : LoopState)
    (h : st.cycles ≤ 10 ∧ st.sortLog.length = st.cycles) :
    (outerLoop N reads indices st).cycles ≤ 10 ∧
      (outerLoop N reads indices st).sortLog.length =
        (outerLoop N reads indices st).cycles := by
  induction indices generalizing st with
  | nil => exact h
  | cons i rest ih =>
    exact ih _ (innerLoop_inv N reads i [true, false] st h)

/-- Claim C1: `extract_all_data` performs at most 10 re-sort cycles in total across
the whole dropdown list (each logged entry is one `change_order_of_column`
call followed by one `extract_page_table` re-read), and once the budget is
exhausted or the accumulator has reached the target count, the loop performs
no further re-sort: from any such state the remaining loop is the identity. -/
theorem extract_all_data_budget (initialDf : List Row) (N numButtons : Nat)
    (reads : Nat → Bool → List Row) :
    (extract_all_data initialDf N numButtons reads).sortLog.length ≤ 10 ∧
      (extract_all_data initialDf N numButtons reads).sortLog.length =
        (extract_all_data initialDf N numButtons reads).cycles ∧
      (∀ (indices : List Nat) (st : LoopState),
        st.cycles = 10 ∨ st.full.length = N →
          outerLoop N reads indices st = st) := by
  have hbase : (⟨initialDf, 0, []⟩ : LoopState).cycles ≤ 10 ∧
      (⟨initialDf, 0, []⟩ : LoopState).sortLog.length =
        (⟨initialDf, 0, []⟩ : LoopState).cycles := by simp
  refine ⟨?_, ?_, fun indices st h => outerLoop_frozen N reads indices st h⟩
  · unfold extract_all_data
    split
    · simp
    · have h := outerLoop_inv N reads (List.range numButtons) ⟨initialDf, 0, []⟩ hbase
      omega
  · unfold extract_all_data
    split
    · simp
    · exact (outerLoop_inv N reads (List.range numButtons) ⟨initialDf, 0, []⟩ hbase).2

/-- Witness for C1: with a 3-dropdown page, target 5 and empty reads, the
budget bound holds, and from a state whose cycle counter already equals 10
the loop is the identity. -/
theorem extract_all_data_budget_witness :
    (extract_all_data [] 5 3 (fun _ _ => [])).sortLog.length ≤ 10 ∧
      outerLoop 5 (fun _ _ => []) [0, 1, 2] ⟨[], 10, []⟩ = ⟨[], 10, []⟩ :=
  ⟨(extract_all_data_budget [] 5 3 (fun _ _ => [])).1,
    (extract_all_data_budget [] 5 3 (fun _ _ => [])).2.2 [0, 1, 2]
      ⟨[], 10, []⟩ (Or.inl rfl)⟩

/-- Claim C3: when the initial default-order read already has exactly `N` rows,
`extract_all_data` returns that batch at once: the cycle counter stays 0 and
the re-sort log stays empty, so `change_order_of_column` is never called and
no second table read happens. -/
theorem extract_all_data_fast_path (initialDf : List Row) (N numButtons : Nat)
    (reads : Nat → Bool → List Row) (h : initialDf.length = N) :
    extract_all_data initialDf N numButtons reads = ⟨initialDf, 0, []⟩ := by
  simp [extract_all_data, h]

/-- Witness for C3: a two-row initial read with target 2 is returned as-is,
with no re-sort logged. -/
theorem extract_all_data_fast_path_witness :
    extract_all_data [⟨"A", "1"⟩, ⟨"B", "2"⟩] 2 4 (fun _ _ => [⟨"C", "3"⟩]) =
      ⟨[⟨"A", "1"⟩, ⟨"B", "2"⟩], 0, []⟩ :=
  extract_all_data_fast_path [⟨"A", "1"⟩, ⟨"B", "2"⟩] 2 4
    (fun _ _ => [⟨"C", "3"⟩]) rfl

/-! ### Properties of the dedup merge (`pd.concat` + `drop_duplicates`) -/

theorem mem_dedupFirstAux (seen l : List String) (k : String) :
    k ∈ dedupFirstAux seen l ↔ k ∈ l ∧ k ∉ seen := by
  induction l generalizing seen with
  | nil => simp [dedupFirstAux]
  | cons x t ih =>
    by_cases hx : x ∈ seen
    · simp only [dedupFirstAux, if_pos hx, ih]
      constructor
      · rintro ⟨hk, hks⟩; exact ⟨List.mem_cons_of_mem x hk, hks⟩
      · rintro ⟨hk, hks⟩
        rcases List.mem_cons.mp hk with rfl | hk
        · exact absurd hx hks
        · exact ⟨hk, hks⟩
    · simp only [dedupFirstAux, if_neg hx, List.mem_cons, ih, List.mem_cons,
        not_or]
      constructor
      · rintro (rfl | ⟨hk, hne, hks⟩)
        · exact ⟨Or.inl rfl, hx⟩
        · exact ⟨Or.inr hk, hks⟩
      · rintro ⟨rfl | hk, hks⟩
        · exact Or.inl rfl
        · by_cases hkx : k = x
          · exact Or.inl hkx
          · exact Or.inr ⟨hk, hkx, hks⟩

theorem count_dedupFirstAux_of_seen (seen l : List String) (k : String)
    (h : k ∈ seen) : (dedupFirstAux seen l).count k = 0 := by
  rw [List.count_eq_zero]
  intro hk
  exact ((mem_dedupFirstAux seen l k).mp hk).2 h

theorem count_dedupFirstAux_le_one (seen l : List String) (k : String) :
    (dedupFirstAux seen l).count k ≤ 1 := by
  induction l generalizing seen with
  | nil => simp [dedupFirstAux]
  | cons x t ih =>
    by_cases hx : x ∈ seen
    · simpa [dedupFirstAux, hx] using ih seen
    · simp only [dedupFirstAux, if_neg hx, List.count_cons]
      by_cases hkx : x = k
      · subst hkx
        rw [count_dedupFirstAux_of_seen (x :: seen) t x (List.mem_cons_self x seen)]
        simp
      · have := ih (x :: seen)
        simp only [beq_iff_eq, if_neg hkx]
        omega

theorem companies_dropDupAux (seen : List String) (l : List Row) :
    companies (dropDupAux seen l) = dedupFirstAux seen (companies l) := by
  induction l generalizing seen with
  | nil => rfl
  | cons r t ih =>
    by_cases hc : r.company ∈ seen
    · simp only [dropDupAux, companies, List.map_cons, dedupFirstAux, if_pos hc]
      exact ih seen
    · simp only [dropDupAux, companies, List.map_cons, dedupFirstAux, if_neg hc]
      exact congrArg (List.cons r.company) (ih (r.company :: seen))

theorem mem_company_of_mem_dropDupAux (seen : List String) (l : List Row)
    (r : Row) (h : r ∈ dropDupAux seen l) : r.company ∉ seen := by
  induction l generalizing seen with
  | nil => simp [dropDupAux] at h
  | cons x t ih =>
    by_cases hx : x.company ∈ seen
    · rw [dropDupAux, if_pos hx] at h
      exact ih seen h
    · rw [dropDupAux, if_neg hx] at h
      rcases List.mem_cons.mp h with rfl | h
      · exact hx
      · have := ih (x.company :: seen) h
        exact fun hs => this (List.mem_cons_of_mem _ hs)

theorem find?_of_mem_dropDupAux (seen : List String) (l : List Row) (r : Row)
    (h : r ∈ dropDupAux seen l) :
    l.find? (fun r2 => r2.company == r.company) = some r := by
  induction l generalizing seen with
  | nil => simp [dropDupAux] at h
  | cons x t ih =>
    by_cases hx : x.company ∈ seen
    · rw [dropDupAux, if_pos hx] at h
      have hne : x.company ≠ r.company := by
        intro he
        exact mem_company_of_mem_dropDupAux seen t r h (he ▸ hx)
      rw [List.find?_cons_of_neg _ (by simp [hne])]
      exact ih seen h
    · rw [dropDupAux, if_neg hx] at h
      rcases List.mem_cons.mp h with rfl | h
      · rw [List.find?_cons_of_pos _ (by simp)]
      · have hne : x.company ≠ r.company := by
          intro he
          exact mem_company_of_mem_dropDupAux (x.company :: seen) t r h
            (he ▸ List.mem_cons_self _ _)
        rw [List.find?_cons_of_neg _ (by simp [hne])]
        exact ih (x.company :: seen) h

theorem dropDupAux_sublist (seen : List String) (l : List Row) :
    (dropDupAux seen l).Sublist l := by
  induction l generalizing seen with
  | nil => simp [dropDupAux]
  | cons x t ih =>
    by_cases hx : x.company ∈ seen
    · rw [dropDupAux, if_pos hx]
      exact (ih seen).cons x
    · rw [dropDupAux, if_neg hx]
      exact (ih (x.company :: seen)).cons₂ x

theorem dropDupAux_append (seen : List String) (l m : List Row) :
    dropDupAux seen (l ++ m) =
      dropDupAux seen l ++ dropDupAux (seenAfter seen l) m := by
  induction l generalizing seen with
  | nil => simp [dropDupAux, seenAfter]
  | cons x t ih =>
    by_cases hx : x.company ∈ seen
    · simp [dropDupAux, seenAfter, hx, ih]
    · simp [dropDupAux, seenAfter, hx, ih]

theorem mem_seenAfter (seen : List String) (l : List Row) (k : String) :
    k ∈ seenAfter seen l ↔ k ∈ seen ∨ k ∈ companies l := by
  induction l generalizing seen with
  | nil => simp [seenAfter, companies]
  | cons r t ih =>
    by_cases hc : r.company ∈ seen
    · rw [seenAfter, if_pos hc, ih]
      simp only [companies, List.map_cons, List.mem_cons]
      constructor
      · rintro (h | h)
        · exact Or.inl h
        · exact Or.inr (Or.inr h)
      · rintro (h | rfl | h)
        · exact Or.inl h
        · exact Or.inl hc
        · exact Or.inr h
    · rw [seenAfter, if_neg hc, ih]
      simp only [companies, List.map_cons, List.mem_cons]
      tauto

theorem dropDupAux_eq_nil_of_all_seen (seen : List String) (m : List Row)
    (h : ∀ r ∈ m, r.company ∈ seen) : dropDupAux seen m = [] := by
  induction m with
  | nil => rfl
  | cons r t ih =>
    rw [dropDupAux, if_pos (h r (List.mem_cons_self r t))]
    exact ih fun r2 hr2 => h r2 (List.mem_cons_of_mem r hr2)

theorem dropDupAux_idem (seen : List String) (l : List Row) :
    dropDupAux seen (dropDupAux seen l) = dropDupAux seen l := by
  induction l generalizing seen with
  | nil => rfl
  | cons r t ih =>
    by_cases hc : r.company ∈ seen
    · rw [dropDupAux, if_pos hc, ih]
    · rw [dropDupAux, if_neg hc, dropDupAux, if_neg hc, ih]

/-- Claim C2: the merge performed after each re-read (`pd.concat` followed by
`drop_duplicates(subset=['Company'])`) deduplicates by the company key:
the result has the keys of the two batches exactly once each, in first-seen
order (its key list is the first-occurrence dedup of the concatenated key
lists, and the result is a subsequence of `B1 ++ B2`), the row kept for a
key is the first row of `B1 ++ B2` bearing it (an already-present key is
never overwritten), and merging the same batch again changes nothing. -/
theorem merge_dedup_spec (B1 B2 : List Row) :
    (∀ k, k ∈ companies (mergeBatches B1 B2) ↔
        k ∈ companies B1 ∨ k ∈ companies B2) ∧
      (∀ k, (companies (mergeBatches B1 B2)).count k ≤ 1) ∧
      companies (mergeBatches B1 B2) =
        dedupFirst (companies B1 ++ companies B2) ∧
      (∀ r ∈ mergeBatches B1 B2,
        (B1 ++ B2).find? (fun r2 => r2.company == r.company) = some r) ∧
      (mergeBatches B1 B2).Sublist (B1 ++ B2) ∧
      (∀ acc, mergeBatches (mergeBatches acc B1) B1 = mergeBatches acc B1) := by
  have hcomp : companies (B1 ++ B2) = companies B1 ++ companies B2 := by
    simp [companies]
  refine ⟨?_, ?_, ?_, ?_, ?_, ?_⟩
  · intro k
    rw [mergeBatches, dropDupCompany, companies_dropDupAux, hcomp,
      mem_dedupFirstAux]
    simp
  · intro k
    rw [mergeBatches, dropDupCompany, companies_dropDupAux]
    exact count_dedupFirstAux_le_one [] _ k
  · rw [mergeBatches, dropDupCompany, companies_dropDupAux, hcomp, dedupFirst]
  · intro r hr
    exact find?_of_mem_dropDupAux [] (B1 ++ B2) r hr
  · exact dropDupAux_sublist [] (B1 ++ B2)
  · intro acc
    have hidem : dropDupAux [] (dropDupAux [] (acc ++ B1)) =
        dropDupAux [] (acc ++ B1) := dropDupAux_idem [] (acc ++ B1)
    have hnil : dropDupAux (seenAfter [] (dropDupAux [] (acc ++ B1))) B1 = [] := by
      apply dropDupAux_eq_nil_of_all_seen
      intro r hr
      rw [mem_seenAfter]
      right
      rw [companies_dropDupAux, mem_dedupFirstAux]
      refine ⟨?_, by simp⟩
      simp only [companies, List.map_append, List.mem_append]
      exact Or.inr (List.mem_map_of_mem Row.company hr)
    simp only [mergeBatches, dropDupCompany]
    rw [dropDupAux_append [] (dropDupAux [] (acc ++ B1)) B1, hidem, hnil,
      List.append_nil]

/-- Witness for C2 at concrete batches: the duplicate key `A` keeps the row
from the first batch, `A` is a key of the merged result, and re-merging a
batch is a no-op. -/
theorem merge_dedup_spec_witness :
    ([Row.mk "A" "1", Row.mk "B" "2"] ++ [Row.mk "A" "9", Row.mk "C" "3"]).find?
        (fun r2 => r2.company == (Row.mk "A" "1").company) =
      some (Row.mk "A" "1") ∧
      "A" ∈ companies
        (mergeBatches [Row.mk "A" "1", Row.mk "B" "2"]
          [Row.mk "A" "9", Row.mk "C" "3"]) ∧
      mergeBatches (mergeBatches [] [Row.mk "A" "1"]) [Row.mk "A" "1"] =
        mergeBatches [] [Row.mk "A" "1"] :=
  ⟨(merge_dedup_spec [Row.mk "A" "1", Row.mk "B" "2"]
      [Row.mk "A" "9", Row.mk "C" "3"]).2.2.2.1 (Row.mk "A" "1") (by decide),
    ((merge_dedup_spec [Row.mk "A" "1", Row.mk "B" "2"]
      [Row.mk "A" "9", Row.mk "C" "3"]).1 "A").mpr (Or.inl (by decide)),
    (merge_dedup_spec [Row.mk "A" "1"] []).2.2.2.2.2 []⟩

/-! ### Direction selected by `change_order_of_column` -/

/-- Claim C4: the loop enumerates the dropdown controls in document order and, for
each control, passes `order = true` first and then `order = false`; but
`change_order_of_column` clicks `order_buttons[int(order)]`, so the first
order value passed (`True`, i.e. index 1) clicks the second link of the
order menu — the descending one, by the function's own comment ("the first
link is for ascending and the second for descending") — contradicting its
docstring ("True for ascending"). -/
theorem change_order_true_selects_second_link :
    change_order_of_column
        (orderMenuLinks ⟨"ascending", "descending"⟩) true = some "descending" ∧
      change_order_of_column
        (orderMenuLinks ⟨"ascending", "descending"⟩) false = some "ascending" ∧
      (extract_all_data [] 1 2 (fun _ _ => [])).sortLog =
        [(0, true), (0, false), (1, true), (1, false)] := by
  refine ⟨rfl, rfl, ?_⟩
  decide

/-- Claim C6 counterexample: for a wrapped operation that raises, the decorator
opens a connection but does not close it — the claim that every operation
releases the connection on every exit path fails on the error path. -/
theorem sqlite3_process_error_leaves_conn_open :
    (sqlite3_process (Except.error 0 : Except Nat Nat)).2.opened = 1 ∧
      (sqlite3_process (Except.error 0 : Except Nat Nat)).2.closed = 0 ∧
      (sqlite3_process (Except.error 0 : Except Nat Nat)).2.closed ≠
        (sqlite3_process (Except.error 0 : Except Nat Nat)).2.opened := by
  decide

/-- Claim C6 amended: every call through `sqlite3_process` opens exactly one fresh
connection and returns the wrapped operation's outcome; on success it commits
once and closes once, but on the error path it neither commits nor closes —
the connection is released only on the success path. -/
theorem sqlite3_process_discipline {E A : Type} (op : Except E A) :
    (sqlite3_process op).1 = op ∧
      (sqlite3_process op).2.opened = 1 ∧
      ((∃ a, op = Except.ok a) → (sqlite3_process op).2 = ⟨1, 1, 1⟩) ∧
      ((∃ e, op = Except.error e) → (sqlite3_process op).2 = ⟨1, 0, 0⟩) := by
  cases op with
  | ok a =>
    refine ⟨rfl, rfl, fun _ => rfl, ?_⟩
    rintro ⟨e, he⟩
    exact absurd he (by simp)
  | error e =>
    refine ⟨rfl, rfl, ?_, fun _ => rfl⟩
    rintro ⟨a, ha⟩
    exact absurd ha (by simp)

/-- Witness for the amended C6: a concrete successful operation commits and
closes; a concrete failing one leaves the connection open. -/
theorem sqlite3_process_discipline_witness :
    (sqlite3_process (Except.ok 5 : Except Nat Nat)).2 = ⟨1, 1, 1⟩ ∧
      (sqlite3_process (Except.error 7 : Except Nat Nat)).2 = ⟨1, 0, 0⟩ :=
  ⟨(sqlite3_process_discipline (Except.ok 5 : Except Nat Nat)).2.2.1 ⟨5, rfl⟩,
    (sqlite3_process_discipline (Except.error 7 : Except Nat Nat)).2.2.2 ⟨7, rfl⟩⟩

/-- Claim C5: with the default `load_date=False`, ingesting a batch with some
column whose name (ignoring case) is not a schema column fails with an error
listing exactly the offending column names, and no row is inserted; if every
column is a case-varied match of some schema column, validation passes and
every row is inserted. -/
theorem ingest_dataframe_schema_validation (schema : List String) (b : Batch) :
    ((∃ h ∈ b.headers, ∀ s ∈ schema, pyLower h ≠ pyLower s) →
        ingest_dataframe schema b false "" =
          Except.error (b.headers.filter fun h =>
            !((schema.map pyLower).contains (pyLower h)))) ∧
      ((∀ h ∈ b.headers, ∃ s ∈ schema, pyLower h = pyLower s) →
        ingest_dataframe schema b false "" =
          Except.ok (b.rows.map fun row => (b.headers, row))) := by
  have hunfold : ingest_dataframe schema b false "" =
      if _validate_headers b.headers schema = [] then
        Except.ok (b.rows.map fun row => (b.headers, row))
      else Except.error (_validate_headers b.headers schema) := rfl
  constructor
  · rintro ⟨h, hmem, hbad⟩
    have hne : _validate_headers b.headers schema ≠ [] := by
      intro hnil
      have hh : h ∈ _validate_headers b.headers schema := by
        rw [_validate_headers, List.mem_filter]
        refine ⟨hmem, ?_⟩
        simp only [List.contains, List.elem_eq_mem, Bool.not_eq_true',
          decide_eq_false_iff_not, List.mem_map, not_exists, not_and]
        intro s hs
        exact fun he => hbad s hs he.symm
      rw [hnil] at hh
      exact absurd hh (List.not_mem_nil h)
    rw [hunfold, if_neg hne]
    rfl
  · intro hall
    have hnil : _validate_headers b.headers schema = [] := by
      rw [_validate_headers, List.filter_eq_nil_iff]
      intro h hmem
      obtain ⟨s, hs, he⟩ := hall h hmem
      simp only [List.contains, List.elem_eq_mem, Bool.not_eq_true',
        decide_eq_false_iff_not, not_not]
      exact he.symm ▸ List.mem_map_of_mem pyLower hs
    rw [hunfold, if_pos hnil]

/-- Witness for C5 at a concrete schema: the bogus column is reported as the
exact offending list, and a case-varied batch ingests all its rows. -/
theorem ingest_dataframe_schema_validation_witness :
    ingest_dataframe ["COMPANY", "STATUS"] ⟨["Company", "BOGUS"], [["a", "b"]]⟩
        false "" = Except.error ["BOGUS"] ∧
      ingest_dataframe ["COMPANY", "STATUS"] ⟨["company", "Status"], [["a", "b"]]⟩
        false "" =
        Except.ok [(["company", "Status"], ["a", "b"])] := by
  constructor
  · have h := (ingest_dataframe_schema_validation ["COMPANY", "STATUS"]
      ⟨["Company", "BOGUS"], [["a", "b"]]⟩).1
      ⟨"BOGUS", by decide, by decide⟩
    rw [h]
    rfl
  · have h := (ingest_dataframe_schema_validation ["COMPANY", "STATUS"]
      ⟨["company", "Status"], [["a", "b"]]⟩).2 (by decide)
    rw [h]
    rfl

/-! ### Properties of the field normalisers -/

theorem ratFloor_eq_floor (q : ℚ) : Rat.floor q = ⌊q⌋ :=
  (Rat.floor_def' q).trans Rat.floor_def.symm

theorem ratFloor_intCast (n : Int) : Rat.floor (n : ℚ) = n := by
  rw [ratFloor_eq_floor, Int.floor_intCast]

theorem truncScaledMul_eq_intCast (d : Decimal) (m : Nat) (n : Int)
    (h : d.toRat * (m : ℚ) = (n : ℚ)) : truncScaledMul d m = n := by
  obtain ⟨neg, a, sc⟩ := d
  have hpow : (0 : ℚ) < 10 ^ sc := by positivity
  have hpows : 0 < (10 : ℕ) ^ sc := by positivity
  cases neg with
  | false =>
    simp only [Decimal.toRat, Bool.false_eq_true, if_false, one_mul] at h
    have hn : ((a * m : ℕ) : ℚ) = (n : ℚ) * 10 ^ sc := by
      push_cast
      field_simp at h
      linarith
    have hn0 : (0 : ℤ) ≤ n := by
      by_contra hneg
      push_neg at hneg
      have h1 : (0 : ℚ) ≤ ((a * m : ℕ) : ℚ) := by positivity
      have h2 : (n : ℚ) * 10 ^ sc < 0 :=
        mul_neg_of_neg_of_pos (by exact_mod_cast hneg) hpow
      linarith
    have hcast : ((n.toNat : ℤ) : ℚ) = (n : ℚ) := by
      rw [Int.toNat_of_nonneg hn0]
    have hnat : a * m = n.toNat * 10 ^ sc := by
      have hq : ((a * m : ℕ) : ℚ) = ((n.toNat * 10 ^ sc : ℕ) : ℚ) := by
        push_cast at hcast hn ⊢
        rw [hcast]
        linarith
      exact_mod_cast hq
    have hdiv : a * m / 10 ^ sc = n.toNat := by
      rw [hnat, Nat.mul_div_cancel _ hpows]
    simp only [truncScaledMul, Bool.false_eq_true, if_false, one_mul, hdiv]
    exact Int.toNat_of_nonneg hn0
  | true =>
    simp only [Decimal.toRat, if_true] at h
    have hn : ((a * m : ℕ) : ℚ) = ((-n : ℤ) : ℚ) * 10 ^ sc := by
      push_cast
      field_simp at h
      linarith
    have hn0 : (0 : ℤ) ≤ -n := by
      by_contra hneg
      push_neg at hneg
      have h1 : (0 : ℚ) ≤ ((a * m : ℕ) : ℚ) := by positivity
      have h2 : ((-n : ℤ) : ℚ) * 10 ^ sc < 0 :=
        mul_neg_of_neg_of_pos (by exact_mod_cast hneg) hpow
      linarith
    have hcast : (((-n).toNat : ℤ) : ℚ) = ((-n : ℤ) : ℚ) := by
      rw [Int.toNat_of_nonneg hn0]
    have hnat : a * m = (-n).toNat * 10 ^ sc := by
      have hq : ((a * m : ℕ) : ℚ) = (((-n).toNat * 10 ^ sc : ℕ) : ℚ) := by
        push_cast at hcast hn ⊢
        rw [hcast]
        linarith
      exact_mod_cast hq
    have hdiv : a * m / 10 ^ sc = (-n).toNat := by
      rw [hnat, Nat.mul_div_cancel _ hpows]
    simp only [truncScaledMul, if_true, hdiv]
    have : ((-n).toNat : ℤ) = -n := Int.toNat_of_nonneg hn0
    omega

theorem dropWhile_eq_self_of_all {α : Type} (p : α → Bool) (l : List α)
    (h : ∀ a ∈ l, p a = false) : l.dropWhile p = l := by
  cases l with
  | nil => rfl
  | cons x t => simp [List.dropWhile_cons, h x (List.mem_cons_self x t)]

theorem mk_data_eq (t : String) : String.mk t.data = t := rfl

theorem alphaChars_no_whitespace (s : String) :
    ∀ c ∈ (alphaChars s).data, c.isWhitespace = false := by
  intro c hc
  have hc2 : c ∈ s.data.filter fun c => (asciiLetters.data).contains c := hc
  have h2 := List.of_mem_filter hc2
  have hall : ∀ c ∈ asciiLetters.data, c.isWhitespace = false := by decide
  exact hall c (by simpa [List.contains, List.elem_iff] using h2)

theorem pyStrip_alphaChars (s : String) :
    pyStrip (alphaChars s) = alphaChars s := by
  have h := alphaChars_no_whitespace s
  rw [pyStrip, dropWhile_eq_self_of_all _ _ h, dropWhile_eq_self_of_all]
  · rw [List.reverse_reverse, mk_data_eq]
  · intro a ha
    exact h a (List.mem_reverse.mp ha)

theorem multipliers_eq_none (k : String) (h1 : k ≠ "k") (h2 : k ≠ "m") :
    multipliers k = none := by
  simp [multipliers, h1, h2]

/-- Claim C7: `_format_currency` maps a numeral with suffix `k` to the
numeral times 1000 and with suffix `m` to the numeral times 1000000,
returned as an integer (concretely `1.5m` to 1500000 and `250k` to 250000);
a digit-only string with no letter suffix is returned as its numeral value
unchanged; and a `None` input (the sentinel) is returned as `None`, which
is neither the integer zero nor the empty string. -/
theorem format_currency_spec :
    _format_currency (some "1.5m") = some (PyVal.int 1500000) ∧
      _format_currency (some "250k") = some (PyVal.int 250000) ∧
      (∀ (s : String) (d : Decimal) (n : Int),
        alphaChars s = "k" → parseFloat (numeralChars s) = some d →
        d.toRat * 1000 = (n : ℚ) →
        _format_currency (some s) = some (PyVal.int n)) ∧
      (∀ (s : String) (d : Decimal) (n : Int),
        alphaChars s = "m" → parseFloat (numeralChars s) = some d →
        d.toRat * 1000000 = (n : ℚ) →
        _format_currency (some s) = some (PyVal.int n)) ∧
      (∀ (s : String) (n : Int), s ≠ "" → alphaChars s = "" →
        parsePyInt (numeralChars s) = some n →
        _format_currency (some s) = some (PyVal.int n)) ∧
      _format_currency Option.none = some PyVal.none ∧
      (∀ n, PyVal.none ≠ PyVal.int n) ∧ PyVal.none ≠ PyVal.str "" := by
  refine ⟨by decide, by decide, ?_, ?_, ?_, rfl, ?_, ?_⟩
  case refine_4 =>
    intro n h
    exact PyVal.noConfusion h
  case refine_5 =>
    intro h
    exact PyVal.noConfusion h
  · intro s d n halpha hparse hval
    have hs : s ≠ "" := by
      intro he
      rw [he] at halpha
      exact absurd halpha (by decide)
    show (if s = "" then some (PyVal.str "") else _) = _
    rw [if_neg hs]
    show (if alphaChars s ≠ "" then _ else _) = _
    rw [if_pos (by rw [halpha]; decide)]
    show (match parseFloat (numeralChars s),
      multipliers (pyStrip (alphaChars s)) with
      | some d, some m => some (PyVal.int (truncScaledMul d m))
      | _, _ => Option.none) = _
    rw [hparse, halpha]
    have hmul : multipliers (pyStrip "k") = some 1000 := by decide
    rw [hmul]
    show some (PyVal.int (truncScaledMul d 1000)) = _
    rw [truncScaledMul_eq_intCast d 1000 n (by exact_mod_cast hval)]
  · intro s d n halpha hparse hval
    have hs : s ≠ "" := by
      intro he
      rw [he] at halpha
      exact absurd halpha (by decide)
    show (if s = "" then some (PyVal.str "") else _) = _
    rw [if_neg hs]
    show (if alphaChars s ≠ "" then _ else _) = _
    rw [if_pos (by rw [halpha]; decide)]
    show (match parseFloat (numeralChars s),
      multipliers (pyStrip (alphaChars s)) with
      | some d, some m => some (PyVal.int (truncScaledMul d m))
      | _, _ => Option.none) = _
    rw [hparse, halpha]
    have hmul : multipliers (pyStrip "m") = some 1000000 := by decide
    rw [hmul]
    show some (PyVal.int (truncScaledMul d 1000000)) = _
    rw [truncScaledMul_eq_intCast d 1000000 n (by exact_mod_cast hval)]
  · intro s n hs halpha hparse
    show (if s = "" then some (PyVal.str "") else _) = _
    rw [if_neg hs]
    show (if alphaChars s ≠ "" then _ else _) = _
    rw [if_neg (by rw [halpha]; simp)]
    show (parsePyInt (numeralChars s)).map PyVal.int = _
    rw [hparse]
    rfl

/-- Witness for C7: the suffixed conjunct applied at `250k` and the
suffix-free conjunct applied at `500`. -/
theorem format_currency_spec_witness :
    _format_currency (some "250k") = some (PyVal.int 250000) ∧
      _format_currency (some "500") = some (PyVal.int 500) :=
  ⟨format_currency_spec.2.2.1 "250k" ⟨false, 250, 0⟩ 250000 (by decide)
      (by decide) (by norm_num [Decimal.toRat]),
    format_currency_spec.2.2.2.2.1 "500" 500 (by decide) (by decide)
      (by decide)⟩

/-- Claim C10: for every non-empty input whose alphabetic characters,
concatenated, form a non-empty string other than `k` or `m` (such as `M`,
`b` or `bn`), `_format_currency` raises (the multiplier lookup fails)
instead of returning a value. -/
theorem format_currency_unknown_suffix (s : String) (h0 : s ≠ "")
    (h1 : alphaChars s ≠ "") (hk : alphaChars s ≠ "k")
    (hm : alphaChars s ≠ "m") : _format_currency (some s) = Option.none := by
  show (if s = "" then some (PyVal.str "") else _) = _
  rw [if_neg h0]
  show (if alphaChars s ≠ "" then _ else _) = _
  rw [if_pos h1]
  show (match parseFloat (numeralChars s),
    multipliers (pyStrip (alphaChars s)) with
    | some d, some m => some (PyVal.int (truncScaledMul d m))
    | _, _ => Option.none) = _
  rw [pyStrip_alphaChars, multipliers_eq_none _ hk hm]
  cases parseFloat (numeralChars s) <;> rfl

/-- Witness for C10: the uppercase suffix `M` raises. -/
theorem format_currency_unknown_suffix_witness :
    _format_currency (some "1.5M") = Option.none :=
  format_currency_unknown_suffix "1.5M" (by decide) (by decide) (by decide)
    (by decide)

/-- Claim C8: `_format_percentages` maps a percentage string to its numeral
value divided by 100 and rounded to 4 decimal places (concretely `12.34%`
to 0.1234), while the empty string and `None` are returned unchanged. -/
theorem format_percentages_spec :
    (∀ (s : String) (d : Decimal), s ≠ "" → numeralChars s ≠ "" →
        parseFloat (numeralChars s) = some d →
        _format_percentages (PyVal.str s) =
          some (PyVal.float (pyRound4 (d.toRat / 100)))) ∧
      _format_percentages (PyVal.str "12.34%") =
        some (PyVal.float (1234 / 10000)) ∧
      _format_percentages (PyVal.str "") = some (PyVal.str "") ∧
      _format_percentages PyVal.none = some PyVal.none := by
  have hgen : ∀ (s : String) (d : Decimal), s ≠ "" → numeralChars s ≠ "" →
      parseFloat (numeralChars s) = some d →
      _format_percentages (PyVal.str s) =
        some (PyVal.float (pyRound4 (d.toRat / 100))) := by
    intro s d hs hnum hparse
    show (if s = "" then some (PyVal.str s) else _) = _
    rw [if_neg hs]
    show (if numeralChars s = "" then some (PyVal.str s) else _) = _
    rw [if_neg hnum]
    show (match parseFloat (numeralChars s) with
      | some d => some (PyVal.float (pyRound4 (d.toRat / 100)))
      | Option.none => Option.none) = _
    rw [hparse]
  refine ⟨hgen, ?_, rfl, rfl⟩
  rw [hgen "12.34%" ⟨false, 1234, 2⟩ (by decide) (by decide) (by decide)]
  have hq : ((⟨false, 1234, 2⟩ : Decimal).toRat / 100) * 10000 =
      ((1234 : Int) : ℚ) := by
    norm_num [Decimal.toRat]
  rw [pyRound4, hq, roundHalfEven, ratFloor_intCast]
  norm_num

/-- Witness for C8: the general conjunct applied at `-7.5%`, evaluating to
the exact rational -0.075. -/
theorem format_percentages_spec_witness :
    _format_percentages (PyVal.str "-7.5%") =
      some (PyVal.float (-(75 / 1000))) := by
  rw [format_percentages_spec.1 "-7.5%" ⟨true, 75, 1⟩ (by decide) (by decide)
    (by decide)]
  have hq : ((⟨true, 75, 1⟩ : Decimal).toRat / 100) * 10000 =
      ((-750 : Int) : ℚ) := by
    norm_num [Decimal.toRat]
  rw [pyRound4, hq, roundHalfEven, ratFloor_intCast]
  norm_num

/-! ### Properties of the COMPANY/ADDRESS split -/

theorem splitDS_no_ds : ∀ (l : List Char), containsDS l = false →
    splitDS l = [l]
  | [], _ => rfl
  | [c], _ => rfl
  | c1 :: c2 :: rest, h => by
    rw [containsDS] at h
    rcases Bool.or_eq_false_iff.mp h with ⟨ha, hb⟩
    have h1 : ¬(c1 = ' ' ∧ c2 = ' ') := by
      rintro ⟨e1, e2⟩
      simp [e1, e2] at ha
    rw [splitDS, if_neg h1, splitDS_no_ds (c2 :: rest) hb]

theorem splitDS_append : ∀ (a b : List Char), containsDS a = false →
    a.getLast? ≠ some ' ' → splitDS (a ++ ' ' :: ' ' :: b) = a :: splitDS b
  | [], b, _, _ => by
    rw [List.nil_append, splitDS, if_pos ⟨rfl, rfl⟩]
  | [c], b, _, hlast => by
    have hc : c ≠ ' ' := by
      intro he
      exact hlast (by rw [he]; rfl)
    have hmid : splitDS (' ' :: ' ' :: b) = [] :: splitDS b := by
      rw [splitDS, if_pos ⟨rfl, rfl⟩]
    show splitDS (c :: ' ' :: ' ' :: b) = [c] :: splitDS b
    rw [splitDS, if_neg (fun hand => hc hand.1), hmid]
  | c1 :: c2 :: rest, b, h, hlast => by
    rw [containsDS] at h
    rcases Bool.or_eq_false_iff.mp h with ⟨ha, hb⟩
    have h1 : ¬(c1 = ' ' ∧ c2 = ' ') := by
      rintro ⟨e1, e2⟩
      simp [e1, e2] at ha
    have hlast2 : (c2 :: rest).getLast? ≠ some ' ' := by
      rwa [List.getLast?_cons_cons] at hlast
    have ih := splitDS_append (c2 :: rest) b hb hlast2
    show splitDS (c1 :: c2 :: (rest ++ ' ' :: ' ' :: b)) =
      (c1 :: c2 :: rest) :: splitDS b
    rw [splitDS, if_neg h1,
      show splitDS (c2 :: (rest ++ ' ' :: ' ' :: b)) =
        (c2 :: rest) :: splitDS b from ih]

/-- Claim C9: the final step of `format_dataframe` derives both COMPANY and
ADDRESS from the raw COMPANY cell by splitting on a double space — the
scraped ADDRESS value is discarded (the output does not depend on it); a
cell with no double space keeps its text as COMPANY and gets a null
ADDRESS; and a cell of the form `a ++ "  " ++ b` (first double space
between `a` and `b`) yields COMPANY `a` and ADDRESS `b`. -/
theorem format_company_address_spec (cell : String)
    (addr addr2 : Option String) :
    (format_company_address ⟨cell, addr⟩ =
        format_company_address ⟨cell, addr2⟩) ∧
      (containsDS cell.data = false →
        format_company_address ⟨cell, addr⟩ = ⟨cell, Option.none⟩) ∧
      (∀ (a b : List Char), containsDS a = false →
        a.getLast? ≠ some ' ' → containsDS b = false →
        cell.data = a ++ ' ' :: ' ' :: b →
        format_company_address ⟨cell, addr⟩ =
          ⟨String.mk a, some (String.mk b)⟩) := by
  refine ⟨rfl, ?_, ?_⟩
  · intro h
    have hsplit := splitDS_no_ds cell.data h
    simp only [format_company_address, companyAddressSplit, hsplit]
  · intro a b ha hlast hb hcell
    have hsplit : splitDS cell.data = [a, b] := by
      rw [hcell, splitDS_append a b ha hlast, splitDS_no_ds b hb]
    simp only [format_company_address, companyAddressSplit, hsplit]

/-- Witness for C9: a concrete cell with one double space is split into
company and address, overwriting the scraped address value. -/
theorem format_company_address_spec_witness :
    format_company_address ⟨"ACME LTD  1 High St", some "scraped"⟩ =
      ⟨"ACME LTD", some "1 High St"⟩ :=
  (format_company_address_spec "ACME LTD  1 High St" (some "scraped")
    Option.none).2.2 "ACME LTD".data "1 High St".data (by decide) (by decide)
    (by decide) (by decide)

end EndoleScraper
